import Mathlib

/-!
# Verification of `generic_decorators.py`

Shallow embedding of the four wrappers in
`src/generic_decorators/generic_decorators.py`:

* `timing`                — timing decorator (lines 21-32),
* `make_parallel`         — thread-based parallel map (lines 35-81),
* `make_parallel_processes` — process-based parallel map (lines 84-117),
* `singleton`             — singleton class decorator (lines 120-133).

Host parallelism (`os.cpu_count()` / `multiprocessing.cpu_count()`) is a
parameter `cpu : ℕ`; on a real host it is at least 1.  The nondeterministic
completion order of `concurrent.futures.as_completed` is a parameter
`ord`, quantified over all permutations of the indices of the input list.
`joblib.Parallel` is modelled by its documented contract: eager,
input-order-preserving collection, re-raising a worker's exception
unchanged.  Fallible calls are modelled with `Except`.
-/

namespace GenericDecorators

/-- Thread-variant worker count, from `make_parallel.wrapper`
(lines 58-63): `number_of_workers = int(os.cpu_count() * 2)`, then
lowered to `len(lst)` when `len(lst) < number_of_workers`. -/
def workersThreads (cpu : ℕ) (lst : List α) : ℕ :=
  let numberOfWorkers := cpu * 2
  if lst.length < numberOfWorkers then lst.length else numberOfWorkers

/-- Process-variant worker count, from `make_parallel_processes.wrapper`
(lines 99-103): `number_of_workers = int(multiprocessing.cpu_count())`,
then lowered to `len(lst)` when `len(lst) < number_of_workers`.
Note: no `* 2` multiplier here, unlike `workersThreads`. -/
def workersProcesses (cpu : ℕ) (lst : List α) : ℕ :=
  let numberOfWorkers := cpu
  if lst.length < numberOfWorkers then lst.length else numberOfWorkers

/-- Which of the three branches of the wrappers' `if` ladder runs:
`number_of_workers` falsy (empty result, no calls), equal to 1 (serial
call, no pool), or ≥ 2 (pool created). -/
inductive ExecPath
  | empty
  | serial
  | pool
deriving DecidableEq, Repr

/-- Branch taken by `make_parallel.wrapper` (lines 65-79). -/
def pathThreads (cpu : ℕ) (lst : List α) : ExecPath :=
  let w := workersThreads cpu lst
  if w = 0 then .empty else if w = 1 then .serial else .pool

/-- Branch taken by `make_parallel_processes.wrapper` (lines 105-116). -/
def pathProcesses (cpu : ℕ) (lst : List α) : ExecPath :=
  let w := workersProcesses cpu lst
  if w = 0 then .empty else if w = 1 then .serial else .pool

/-- The elements of `lst` on which the wrapped function is actually
invoked, for a given branch: none on the empty branch, only `lst[0]` on
the serial branch (`result = [func(lst[0])]`), every element on the pool
branch (every element is submitted / dispatched). -/
def calledOn (path : ExecPath) (lst : List α) : List α :=
  match path with
  | .empty => []
  | .serial => lst.take 1
  | .pool => lst

/-- The wrapped callable produced by `make_parallel` (thread variant,
lines 47-80).  `ord` is the order in which
`concurrent.futures.as_completed` yields the `|lst|` submitted futures;
the loop appends `future.result()` in that order. -/
def wrapperThreads (f : α → β) (cpu : ℕ) (lst : List α)
    (ord : List (Fin lst.length)) : List β :=
  let numberOfWorkers := workersThreads cpu lst
  if numberOfWorkers = 0 then []
  else if numberOfWorkers = 1 then
    match lst with
    | [] => []
    | x :: _ => [f x]
  else ord.map (fun i => f (lst.get i))

/-- The wrapped callable produced by `make_parallel_processes`
(process variant, lines 91-117).  The pool branch
`Parallel(n_jobs=w)(delayed(func)(i) for i in lst)` is modelled by
`joblib`'s documented contract: the result list is in input order,
`R[i] = f(L[i])`. -/
def wrapperProcesses (f : α → β) (cpu : ℕ) (lst : List α) : List β :=
  let numberOfWorkers := workersProcesses cpu lst
  if numberOfWorkers = 0 then []
  else if numberOfWorkers = 1 then
    match lst with
    | [] => []
    | x :: _ => [f x]
  else lst.map f

/-- The log line printed by the timing wrapper (line 30):
`'func:%r args:[%r, %r] took: %2.4f sec'` — the function's name, the
representations of the positional and keyword arguments, and the
elapsed time. -/
structure LogLine where
  funcName : String
  argsRepr : String
  kwRepr : String
  took : ℚ
deriving DecidableEq, Repr

/-- The wrapped callable produced by `timing` (lines 21-32).  `args`
bundles the positional and keyword arguments; `startTime` and `endTime`
are the two `time()` readings.  It returns the wrapped function's result
together with the printed log line. -/
def timingWrap (funcName : String) (argsRepr kwRepr : α → String)
    (func : α → β) (args : α) (startTime endTime : ℚ) : β × LogLine :=
  let result := func args
  let elapsed := endTime - startTime
  (result, ⟨funcName, argsRepr args, kwRepr args, elapsed⟩)

/-- One call of `singleton.getinstance` (lines 127-131) for a fixed
wrapped class.  The per-class slot of the `instances` dict is an
`Option β`; `cls` is the class constructor.  Returns the value of
`instances[class_]` that is returned, and the dict slot afterwards. -/
def getinstance (cls : α → β) (instances : Option β) (args : α) :
    β × Option β :=
  match instances with
  | some inst => (inst, some inst)
  | none => let inst := cls args; (inst, some inst)

/-- Iterate `singleton.getinstance` over a sequence of calls with the
given argument tuples, starting from cache state `instances`; returns
the list of returned instances and the final cache state. -/
def runCalls (cls : α → β) (instances : Option β) :
    List α → List β × Option β
  | [] => ([], instances)
  | args :: rest =>
      let (inst, instances1) := getinstance cls instances args
      let (rest1, instances2) := runCalls cls instances1 rest
      (inst :: rest1, instances2)

/-- One call of `singleton.getinstance` with a fallible constructor:
if `class_(*args, **kwargs)` raises, the assignment
`instances[class_] = ...` never executes, the dict slot is unchanged,
and the exception propagates. -/
def getinstanceE (cls : α → Except ε β) (instances : Option β) (args : α) :
    Except ε β × Option β :=
  match instances with
  | some inst => (.ok inst, some inst)
  | none =>
      match cls args with
      | .ok inst => (.ok inst, some inst)
      | .error e => (.error e, none)

/-- Collect a list of fallible results in order, re-raising the first
error encountered: models the `result.append(future.result())` loop of
the thread wrapper (in completion order) and `joblib.Parallel`'s eager
gather (in input order), both of which re-raise a worker's exception
unchanged. -/
def collectResults : List (Except ε β) → Except ε (List β)
  | [] => .ok []
  | r :: rs =>
      match r with
      | .error e => .error e
      | .ok b =>
          match collectResults rs with
          | .error e => .error e
          | .ok bs => .ok (b :: bs)

/-- `make_parallel.wrapper` with a fallible wrapped function: the serial
branch raises whatever `func(lst[0])` raises; the pool branch raises the
first exception among `future.result()` in completion order `ord`. -/
def wrapperThreadsE (f : α → Except ε β) (cpu : ℕ) (lst : List α)
    (ord : List (Fin lst.length)) : Except ε (List β) :=
  let numberOfWorkers := workersThreads cpu lst
  if numberOfWorkers = 0 then .ok []
  else if numberOfWorkers = 1 then
    match lst with
    | [] => .ok []
    | x :: _ => (f x).map (fun b => [b])
  else collectResults (ord.map (fun i => f (lst.get i)))

/-- `make_parallel_processes.wrapper` with a fallible wrapped function:
the serial branch raises whatever `func(lst[0])` raises; the
`joblib.Parallel` branch surfaces the first worker exception (in input
order) unchanged. -/
def wrapperProcessesE (f : α → Except ε β) (cpu : ℕ) (lst : List α) :
    Except ε (List β) :=
  let numberOfWorkers := workersProcesses cpu lst
  if numberOfWorkers = 0 then .ok []
  else if numberOfWorkers = 1 then
    match lst with
    | [] => .ok []
    | x :: _ => (f x).map (fun b => [b])
  else collectResults (lst.map f)

/-! ## Helper lemmas -/

lemma workersThreads_eq_min (cpu : ℕ) (lst : List α) :
    workersThreads cpu lst = min (cpu * 2) lst.length := by
  simp only [workersThreads]
  split <;> omega

lemma workersProcesses_eq_min (cpu : ℕ) (lst : List α) :
    workersProcesses cpu lst = min cpu lst.length := by
  simp only [workersProcesses]
  split <;> omega

lemma workersThreads_nil (cpu : ℕ) : workersThreads cpu ([] : List α) = 0 := by
  simp [workersThreads_eq_min]

lemma workersProcesses_nil (cpu : ℕ) : workersProcesses cpu ([] : List α) = 0 := by
  simp [workersProcesses_eq_min]

lemma workersThreads_singleton (cpu : ℕ) (x : α) (hcpu : 1 ≤ cpu) :
    workersThreads cpu [x] = 1 := by
  rw [workersThreads_eq_min]
  simp only [List.length_singleton]
  omega

lemma workersProcesses_singleton (cpu : ℕ) (x : α) (hcpu : 1 ≤ cpu) :
    workersProcesses cpu [x] = 1 := by
  rw [workersProcesses_eq_min]
  simp only [List.length_singleton]
  omega

lemma runCalls_some (cls : α → β) (i : β) (xs : List α) :
    runCalls cls (some i) xs = (xs.map (fun _ => i), some i) := by
  induction xs with
  | nil => rfl
  | cons x xs ih => simp [runCalls, getinstance, ih]

lemma collectResults_error_of_mem (l : List (Except ε β)) (e₀ : ε)
    (h : Except.error e₀ ∈ l) :
    ∃ e, collectResults l = Except.error e ∧ Except.error e ∈ l := by
  induction l with
  | nil => cases h
  | cons r rs ih =>
    cases r with
    | error e => exact ⟨e, rfl, List.mem_cons_self _ _⟩
    | ok b =>
      have hmem : Except.error e₀ ∈ rs := by
        rcases List.mem_cons.mp h with h1 | h1
        · simp at h1
        · exact h1
      obtain ⟨e, he, hmem2⟩ := ih hmem
      exact ⟨e, by simp [collectResults, he], List.mem_cons_of_mem _ hmem2⟩

lemma pool_map_perm (f : α → γ) (lst : List α) (ord : List (Fin lst.length))
    (hord : ord.Perm (List.finRange lst.length)) :
    (ord.map (fun i => f (lst.get i))).Perm (lst.map f) := by
  have h1 := hord.map (fun i => f (lst.get i))
  have h2 : (List.finRange lst.length).map (fun i => f (lst.get i)) = lst.map f := by
    rw [show (fun i => f (lst.get i)) = f ∘ lst.get from rfl, ← List.map_map,
      List.finRange_map_get]
  rwa [h2] at h1

/-- On a host with at least 2 CPUs the process wrapper is exactly the
elementwise map in input order; `2 ≤ cpu` rules out the serial branch
being taken for multi-element lists. -/
lemma wrapperProcesses_map (f : α → β) (cpu : ℕ) (lst : List α)
    (hcpu : 2 ≤ cpu) : wrapperProcesses f cpu lst = lst.map f := by
  rcases lst with _ | ⟨x, rest⟩
  · simp [wrapperProcesses, workersProcesses_nil]
  · rcases rest with _ | ⟨x2, rest2⟩
    · simp [wrapperProcesses, workersProcesses_singleton cpu x (by omega)]
    · have h2 : 2 ≤ workersProcesses cpu (x :: x2 :: rest2) := by
        rw [workersProcesses_eq_min]
        simp only [List.length_cons]
        omega
      simp only [wrapperProcesses]
      rw [if_neg (by omega), if_neg (by omega)]

lemma wrapperThreads_pool (f : α → β) (cpu : ℕ) (lst : List α)
    (ord : List (Fin lst.length)) (h2 : 2 ≤ workersThreads cpu lst) :
    wrapperThreads f cpu lst ord = ord.map (fun i => f (lst.get i)) := by
  simp only [wrapperThreads]
  rw [if_neg (by omega), if_neg (by omega)]

/-- Empty input: both wrappers return `[]` on the empty-path branch,
with no elements ever passed to the wrapped function. -/
lemma wrappers_nil (f : α → β) (cpu : ℕ) (ord : List (Fin 0)) :
    wrapperThreads f cpu [] ord = [] ∧ wrapperProcesses f cpu [] = [] ∧
    pathThreads cpu ([] : List α) = .empty ∧
    pathProcesses cpu ([] : List α) = .empty ∧
    calledOn (pathThreads cpu ([] : List α)) ([] : List α) = [] ∧
    calledOn (pathProcesses cpu ([] : List α)) ([] : List α) = [] := by
  refine ⟨?_, ?_, ?_, ?_, ?_, ?_⟩ <;>
    simp [wrapperThreads, wrapperProcesses, pathThreads, pathProcesses,
      calledOn, workersThreads_nil, workersProcesses_nil]

/-- The thread wrapper preserves the input length on any host with at
least one CPU (for it, `W = 1` forces `|L| = 1` because the multiplier
makes `C * 2 ≥ 2`). -/
lemma wrapperThreads_length (f : α → β) (cpu : ℕ) (lst : List α)
    (ord : List (Fin lst.length)) (hcpu : 1 ≤ cpu)
    (hord : ord.Perm (List.finRange lst.length)) :
    (wrapperThreads f cpu lst ord).length = lst.length := by
  rcases lst with _ | ⟨x, rest⟩
  · simp [wrapperThreads, workersThreads_nil]
  · rcases rest with _ | ⟨x2, rest2⟩
    · simp [wrapperThreads, workersThreads_singleton cpu x hcpu]
    · have h2 : 2 ≤ workersThreads cpu (x :: x2 :: rest2) := by
        rw [workersThreads_eq_min]
        simp only [List.length_cons]
        omega
      rw [wrapperThreads_pool _ _ _ _ h2, List.length_map, hord.length_eq,
        List.length_finRange]

/-- The process wrapper preserves the input length only on hosts with
at least 2 CPUs (on a 1-CPU host the serial branch truncates
multi-element lists; see the C1/C2 failing inputs below). -/
lemma wrapperProcesses_length (f : α → β) (cpu : ℕ) (lst : List α)
    (hcpu : 2 ≤ cpu) : (wrapperProcesses f cpu lst).length = lst.length := by
  rw [wrapperProcesses_map f cpu lst hcpu, List.length_map]

/-! ## Claim theorems -/

/-- Claim C1 (failing input): on a host where
`multiprocessing.cpu_count()` returns 1, the process wrapper applied to
`f = fun x => x * x` and `L = [3, 4]` returns `[9]` — only `f(L[0])` —
while the elementwise map of `f` over `L` is `[9, 16]`.  The worker
count `min(1, 2) = 1` sends a 2-element list into the serial branch
`result = [func(lst[0])]`, whose own comment assumes the list has
length 1, so `R[1] = f(L[1])` fails (there is no index 1). -/
theorem processes_single_cpu_drops_elements :
    wrapperProcesses (fun x : ℕ => x * x) 1 [3, 4] = [9] ∧
    List.map (fun x : ℕ => x * x) [3, 4] = [9, 16] := by
  constructor <;> rfl

/-- Claim C2 (failing input): on a host where
`multiprocessing.cpu_count()` returns 1, the process wrapper applied to
the 3-element list `[1, 2, 3]` returns a list of length 1, not 3. -/
theorem processes_single_cpu_wrong_length :
    (wrapperProcesses (fun x : ℕ => x + 1) 1 [1, 2, 3]).length = 1 ∧
    ([1, 2, 3] : List ℕ).length = 3 := by
  constructor <;> rfl

/-- Claim C3 (counterexample): the process wrapper does NOT use the
thread wrapper's sizing formula `min(C * 2, |L|)`.  With `C = 4` and
`|L| = 100` it spawns `4` workers, while `min(4 * 2, 100) = 8`. -/
theorem processes_workers_formula_counterexample :
    workersProcesses 4 (List.range 100) = 4 ∧
    workersProcesses 4 (List.range 100) ≠
      min (4 * 2) (List.range 100).length := by
  constructor
  · rw [workersProcesses_eq_min]
    simp
  · rw [workersProcesses_eq_min]
    simp

/-- Claim C3 (amended): the process wrapper's worker count is
`W = min(C, |L|)` — it omits the `* 2` multiplier used by the thread
wrapper, so the sizing formula itself differs between the two, not just
the CPU-count query path. -/
theorem processes_workers_eq_min (cpu : ℕ) (lst : List α) :
    workersProcesses cpu lst = min cpu lst.length := by
  simp only [workersProcesses]
  split <;> omega

/-- Claim C5: the thread wrapper sizes its pool as
`W = min(C * 2, |L|)`; in particular for `C = 4` and `|L| = 100` the
pool size is 8. -/
theorem threads_workers_formula (cpu : ℕ) (lst : List α) :
    workersThreads cpu lst = min (cpu * 2) lst.length ∧
    workersThreads 4 (List.range 100) = 8 := by
  constructor
  · simp only [workersThreads]
    split <;> omega
  · simp only [workersThreads]
    split <;> simp_all

/-- Claim C7: wrapping a class with `singleton` and calling it first
with arguments `y` and then any number of further times with arbitrary
arguments always returns the instance constructed from `y` on the first
call; the later arguments are ignored (the later results do not depend
on them at all), and the cached instance never changes. -/
theorem singleton_returns_first_instance (cls : α → β) (y : α)
    (xs : List α) :
    runCalls cls none (y :: xs) =
      (cls y :: xs.map (fun _ => cls y), some (cls y)) := by
  simp [runCalls, getinstance, runCalls_some]

/-- Claim C9: the timing wrapper returns exactly the wrapped function's
result on the same arguments, unmodified (the log line is emitted
alongside, never altering the result). -/
theorem timing_preserves_result (funcName : String)
    (argsRepr kwRepr : α → String) (func : α → β) (args : α)
    (startTime endTime : ℚ) :
    (timingWrap funcName argsRepr kwRepr func args startTime endTime).1 =
      func args := rfl

/-- Claim C10: if the wrapped constructor raises on the first call to a
singleton-wrapped class, nothing is cached (the per-class slot stays
empty) and the error propagates; a subsequent call attempts
construction again and, if it succeeds, caches and returns the fresh
instance. -/
theorem singleton_failed_ctor_not_cached (cls : α → Except ε β)
    (y x : α) (e : ε) (i : β) (h₁ : cls y = .error e)
    (h₂ : cls x = .ok i) :
    getinstanceE cls none y = (.error e, none) ∧
    getinstanceE cls (getinstanceE cls none y).2 x = (.ok i, some i) := by
  constructor
  · simp [getinstanceE, h₁]
  · simp [getinstanceE, h₁, h₂]

theorem singleton_failed_ctor_not_cached_witness :
    getinstanceE (fun n : ℕ => if n = 0 then Except.error "boom" else Except.ok n)
      none 0 = (Except.error "boom", none) ∧
    getinstanceE (fun n : ℕ => if n = 0 then Except.error "boom" else Except.ok n)
      ((getinstanceE
        (fun n : ℕ => if n = 0 then Except.error "boom" else Except.ok n)
        none 0).2) 1 = (Except.ok 1, some 1) :=
  singleton_failed_ctor_not_cached
    (fun n : ℕ => if n = 0 then Except.error "boom" else Except.ok n)
    0 1 "boom" 1 (by rfl) (by rfl)

/-- Claim C4: for a host with at least one CPU, a non-empty input list
and any completion order of the futures, the thread wrapper's result
has exactly the same elements (as a set) as the elementwise map of `f`
over the input; order is not claimed. -/
theorem threads_result_set_eq (f : α → β) (cpu : ℕ) (lst : List α)
    (ord : List (Fin lst.length)) (hcpu : 1 ≤ cpu) (hne : lst ≠ [])
    (hord : ord.Perm (List.finRange lst.length)) :
    ∀ y, y ∈ wrapperThreads f cpu lst ord ↔ y ∈ lst.map f := by
  by_cases h1 : lst.length = 1
  · obtain ⟨x, rfl⟩ := List.length_eq_one.mp h1
    have hw := workersThreads_singleton cpu x hcpu
    intro y
    simp [wrapperThreads, hw]
  · have hlen : 0 < lst.length := List.length_pos.mpr hne
    have h2 : 2 ≤ workersThreads cpu lst := by
      rw [workersThreads_eq_min]
      omega
    rw [wrapperThreads_pool f cpu lst ord h2]
    intro y
    exact (pool_map_perm f lst ord hord).mem_iff

theorem threads_result_set_eq_witness :
    (4 ∈ wrapperThreads (fun x => x * x) 1 [1, 2, 3]
        (([2, 0, 1] : List (Fin 3))) ↔
      4 ∈ ([1, 2, 3] : List ℕ).map (fun x => x * x)) :=
  threads_result_set_eq (fun x => x * x) 1 [1, 2, 3]
    (([2, 0, 1] : List (Fin 3))) (by decide) (by decide) (by decide) 4

/-- Claim C6: on a host with at least one CPU, both wrappers applied to
a one-element list `[x]` take the serial branch (no pool), invoke the
wrapped function exactly on `[x]` — i.e. exactly once, on `lst[0]`, in
the calling thread — and return the one-element list `[f x]`. -/
theorem single_element_serial (f : α → β) (cpu : ℕ) (x : α)
    (ord : List (Fin 1)) (hcpu : 1 ≤ cpu) :
    wrapperThreads f cpu [x] ord = [f x] ∧
    pathThreads cpu ([x] : List α) = .serial ∧
    calledOn (pathThreads cpu ([x] : List α)) [x] = [x] ∧
    wrapperProcesses f cpu [x] = [f x] ∧
    pathProcesses cpu ([x] : List α) = .serial ∧
    calledOn (pathProcesses cpu ([x] : List α)) [x] = [x] := by
  have hwt := workersThreads_singleton cpu x hcpu
  have hwp := workersProcesses_singleton cpu x hcpu
  refine ⟨?_, ?_, ?_, ?_, ?_, ?_⟩ <;>
    simp [wrapperThreads, wrapperProcesses, pathThreads, pathProcesses,
      calledOn, hwt, hwp]

theorem single_element_serial_witness :
    wrapperThreads (fun n => n + 3) 2 [5] ([0] : List (Fin 1)) =
      [(5 : ℕ) + 3] ∧
    pathThreads 2 ([5] : List ℕ) = .serial ∧
    calledOn (pathThreads 2 ([5] : List ℕ)) [5] = [5] ∧
    wrapperProcesses (fun n => n + 3) 2 [5] = [(5 : ℕ) + 3] ∧
    pathProcesses 2 ([5] : List ℕ) = .serial ∧
    calledOn (pathProcesses 2 ([5] : List ℕ)) [5] = [5] :=
  single_element_serial (fun n => n + 3) 2 5 ([0] : List (Fin 1)) (by decide)

lemma threads_error_aux (f : α → Except ε β) (cpu : ℕ) (lst : List α)
    (ord : List (Fin lst.length))
    (hord : ord.Perm (List.finRange lst.length))
    (h : ∃ x ∈ calledOn (pathThreads cpu lst) lst, ∃ e, f x = .error e) :
    ∃ x ∈ calledOn (pathThreads cpu lst) lst, ∃ e, f x = .error e ∧
      wrapperThreadsE f cpu lst ord = .error e := by
  obtain ⟨x, hx, e₀, he₀⟩ := h
  by_cases h0 : workersThreads cpu lst = 0
  · simp [pathThreads, h0, calledOn] at hx
  by_cases h1 : workersThreads cpu lst = 1
  · have hne : lst ≠ [] := by
      intro hnil
      subst hnil
      rw [workersThreads_nil] at h1
      simp at h1
    obtain ⟨y, rest, rfl⟩ := List.exists_cons_of_ne_nil hne
    have hpath : pathThreads cpu (y :: rest) = .serial := by
      simp [pathThreads, h0, h1]
    rw [hpath] at hx
    have hxy : x = y := by simpa [calledOn] using hx
    have he' : f y = Except.error e₀ := by rw [← hxy]; exact he₀
    refine ⟨y, ?_, e₀, he', ?_⟩
    · rw [hpath]; simp [calledOn]
    · simp [wrapperThreadsE, h0, h1, he', Except.map]
  · have hpath : pathThreads cpu lst = .pool := by
      simp [pathThreads, h0, h1]
    rw [hpath] at hx
    simp only [calledOn] at hx
    have hmem : Except.error e₀ ∈ lst.map f := List.mem_map.mpr ⟨x, hx, he₀⟩
    have hmem2 : Except.error e₀ ∈ ord.map (fun i => f (lst.get i)) :=
      (pool_map_perm f lst ord hord).mem_iff.mpr hmem
    obtain ⟨e, he, hmem3⟩ := collectResults_error_of_mem _ e₀ hmem2
    have hmem4 : Except.error e ∈ lst.map f :=
      (pool_map_perm f lst ord hord).mem_iff.mp hmem3
    obtain ⟨x', hx', hfx'⟩ := List.mem_map.mp hmem4
    refine ⟨x', ?_, e, hfx', ?_⟩
    · rw [hpath]; simpa [calledOn] using hx'
    · simp only [wrapperThreadsE]
      rw [if_neg h0, if_neg h1]
      exact he

lemma processes_error_aux (f : α → Except ε β) (cpu : ℕ) (lst : List α)
    (h : ∃ x ∈ calledOn (pathProcesses cpu lst) lst, ∃ e, f x = .error e) :
    ∃ x ∈ calledOn (pathProcesses cpu lst) lst, ∃ e, f x = .error e ∧
      wrapperProcessesE f cpu lst = .error e := by
  obtain ⟨x, hx, e₀, he₀⟩ := h
  by_cases h0 : workersProcesses cpu lst = 0
  · simp [pathProcesses, h0, calledOn] at hx
  by_cases h1 : workersProcesses cpu lst = 1
  · have hne : lst ≠ [] := by
      intro hnil
      subst hnil
      rw [workersProcesses_nil] at h1
      simp at h1
    obtain ⟨y, rest, rfl⟩ := List.exists_cons_of_ne_nil hne
    have hpath : pathProcesses cpu (y :: rest) = .serial := by
      simp [pathProcesses, h0, h1]
    rw [hpath] at hx
    have hxy : x = y := by simpa [calledOn] using hx
    have he' : f y = Except.error e₀ := by rw [← hxy]; exact he₀
    refine ⟨y, ?_, e₀, he', ?_⟩
    · rw [hpath]; simp [calledOn]
    · simp [wrapperProcessesE, h0, h1, he', Except.map]
  · have hpath : pathProcesses cpu lst = .pool := by
      simp [pathProcesses, h0, h1]
    rw [hpath] at hx
    simp only [calledOn] at hx
    have hmem : Except.error e₀ ∈ lst.map f := List.mem_map.mpr ⟨x, hx, he₀⟩
    obtain ⟨e, he, hmem3⟩ := collectResults_error_of_mem _ e₀ hmem
    obtain ⟨x', hx', hfx'⟩ := List.mem_map.mp hmem3
    refine ⟨x', ?_, e, hfx', ?_⟩
    · rw [hpath]; simpa [calledOn] using hx'
    · simp only [wrapperProcessesE]
      rw [if_neg h0, if_neg h1]
      exact he

/-- Claim C8: for both wrappers, if the wrapped function raises on one
of the elements it is actually invoked on, the wrapper's outcome is
exactly an error value produced by the wrapped function on one of those
elements — propagated unchanged, with no result list returned (the
thread wrapper re-raises the first failing `future.result()` in
completion order; the process wrapper surfaces the first worker
exception). -/
theorem parallel_error_propagates (f : α → Except ε β) (cpu : ℕ)
    (lst : List α) (ord : List (Fin lst.length))
    (hord : ord.Perm (List.finRange lst.length)) :
    ((∃ x ∈ calledOn (pathThreads cpu lst) lst, ∃ e, f x = .error e) →
      ∃ x ∈ calledOn (pathThreads cpu lst) lst, ∃ e, f x = .error e ∧
        wrapperThreadsE f cpu lst ord = .error e) ∧
    ((∃ x ∈ calledOn (pathProcesses cpu lst) lst, ∃ e, f x = .error e) →
      ∃ x ∈ calledOn (pathProcesses cpu lst) lst, ∃ e, f x = .error e ∧
        wrapperProcessesE f cpu lst = .error e) :=
  ⟨threads_error_aux f cpu lst ord hord, processes_error_aux f cpu lst⟩

theorem parallel_error_propagates_witness :
    ((∃ x ∈ calledOn (pathThreads 1 ([0, 2] : List ℕ)) [0, 2], ∃ e,
        (fun n : ℕ => if n = 0 then Except.error "E" else Except.ok n) x =
          .error e) →
      ∃ x ∈ calledOn (pathThreads 1 ([0, 2] : List ℕ)) [0, 2], ∃ e,
        (fun n : ℕ => if n = 0 then Except.error "E" else Except.ok n) x =
          .error e ∧
        wrapperThreadsE
          (fun n : ℕ => if n = 0 then Except.error "E" else Except.ok n)
          1 [0, 2] (([1, 0] : List (Fin 2))) = .error e) ∧
    ((∃ x ∈ calledOn (pathProcesses 1 ([0, 2] : List ℕ)) [0, 2], ∃ e,
        (fun n : ℕ => if n = 0 then Except.error "E" else Except.ok n) x =
          .error e) →
      ∃ x ∈ calledOn (pathProcesses 1 ([0, 2] : List ℕ)) [0, 2], ∃ e,
        (fun n : ℕ => if n = 0 then Except.error "E" else Except.ok n) x =
          .error e ∧
        wrapperProcessesE
          (fun n : ℕ => if n = 0 then Except.error "E" else Except.ok n)
          1 [0, 2] = .error e) :=
  parallel_error_propagates
    (fun n : ℕ => if n = 0 then Except.error "E" else Except.ok n) 1 [0, 2]
    (([1, 0] : List (Fin 2))) (by decide)

end GenericDecorators
